import Mathlib

/-!
Verification of the flow-hook webhook capture service.

The development shallowly embeds the capture pipeline of the repository:
body storage (UTF-8 / base64 classification), the HMAC signature gate,
the sliding-window rate limiter, the capture coordinator, the SSE event
fan-out, the forwarding retry loop with backoff, and the transformation
fold.  Bytes are modelled as `Nat` (with `< 256` hypotheses where byte
arithmetic matters), timestamps as `Int` seconds, strings as `String`.
-/

set_option maxRecDepth 4000

namespace FlowHook

/-! ## Base64 (Go `encoding/base64` standard alphabet, with padding)

`b64Char n` is the ASCII code of the standard-alphabet character for a
sextet `n`; `61` is the ASCII code of the `=` padding character. -/

def b64Char (n : Nat) : Nat :=
  if n < 26 then 65 + n
  else if n < 52 then 97 + (n - 26)
  else if n < 62 then 48 + (n - 52)
  else if n = 62 then 43
  else 47

def b64Index (c : Nat) : Option Nat :=
  if 65 ≤ c ∧ c ≤ 90 then some (c - 65)
  else if 97 ≤ c ∧ c ≤ 122 then some (c - 97 + 26)
  else if 48 ≤ c ∧ c ≤ 57 then some (c - 48 + 52)
  else if c = 43 then some 62
  else if c = 47 then some 63
  else none

theorem b64Index_b64Char {n : Nat} (h : n < 64) : b64Index (b64Char n) = some n := by
  have hall : ∀ m : Fin 64, b64Index (b64Char m.val) = some m.val := by decide
  exact hall ⟨n, h⟩

theorem b64Char_ne_pad (n : Nat) : b64Char n ≠ 61 := by
  unfold b64Char
  split <;> try omega
  split <;> try omega
  split <;> try omega
  split <;> omega

/-- Base64 standard encoding of a byte list, as the ASCII byte list of the
encoded text (mirrors Go `base64.StdEncoding.EncodeToString`). -/
def base64Encode : List Nat → List Nat
  | [] => []
  | [a] => [b64Char (a / 4), b64Char (a % 4 * 16), 61, 61]
  | [a, b] => [b64Char (a / 4), b64Char (a % 4 * 16 + b / 16), b64Char (b % 16 * 4), 61]
  | a :: b :: c :: rest =>
      b64Char (a / 4) :: b64Char (a % 4 * 16 + b / 16) ::
      b64Char (b % 16 * 4 + c / 64) :: b64Char (c % 64) :: base64Encode rest

/-- Base64 standard decoding: inverse of `base64Encode`. -/
def base64Decode : List Nat → Option (List Nat)
  | [] => some []
  | c0 :: c1 :: c2 :: c3 :: rest =>
      match b64Index c0, b64Index c1 with
      | some s0, some s1 =>
          if c2 = 61 ∧ c3 = 61 ∧ rest = [] then
            some [s0 * 4 + s1 / 16]
          else if c3 = 61 ∧ rest = [] then
            match b64Index c2 with
            | some s2 => some [s0 * 4 + s1 / 16, s1 % 16 * 16 + s2 / 4]
            | none => none
          else
            match b64Index c2, b64Index c3 with
            | some s2, some s3 =>
                match base64Decode rest with
                | some bs => some ((s0 * 4 + s1 / 16) :: (s1 % 16 * 16 + s2 / 4) ::
                                   (s2 % 4 * 64 + s3) :: bs)
                | none => none
            | _, _ => none
      | _, _ => none
  | _ => some []

theorem base64_roundTrip :
    ∀ l : List Nat, (∀ b ∈ l, b < 256) → base64Decode (base64Encode l) = some l := by
  intro l
  induction l using base64Encode.induct with
  | case1 => intro _; rfl
  | case2 a =>
      intro hb
      have ha : a < 256 := hb a (by simp)
      have h0 : a / 4 < 64 := by omega
      have h1 : a % 4 * 16 < 64 := by omega
      simp only [base64Encode, base64Decode, b64Index_b64Char h0, b64Index_b64Char h1]
      rw [if_pos (by simp)]
      congr 1
      congr 1
      omega
  | case3 a b =>
      intro hb
      have ha : a < 256 := hb a (by simp)
      have hbb : b < 256 := hb b (by simp)
      have h0 : a / 4 < 64 := by omega
      have h1 : a % 4 * 16 + b / 16 < 64 := by omega
      have h2 : b % 16 * 4 < 64 := by omega
      simp only [base64Encode, base64Decode, b64Index_b64Char h0, b64Index_b64Char h1]
      rw [if_neg (by simp [b64Char_ne_pad])]
      rw [if_pos (by simp)]
      simp only [b64Index_b64Char h2]
      congr 1
      congr 1
      · omega
      congr 1
      omega
  | case4 a b c rest ih =>
      intro hb
      have ha : a < 256 := hb a (by simp)
      have hbb : b < 256 := hb b (by simp)
      have hc : c < 256 := hb c (by simp)
      have hrest : ∀ x ∈ rest, x < 256 := by
        intro x hx; exact hb x (by simp [hx])
      have h0 : a / 4 < 64 := by omega
      have h1 : a % 4 * 16 + b / 16 < 64 := by omega
      have h2 : b % 16 * 4 + c / 64 < 64 := by omega
      have h3 : c % 64 < 64 := by omega
      simp only [base64Encode, base64Decode, b64Index_b64Char h0, b64Index_b64Char h1]
      rw [if_neg (by simp [b64Char_ne_pad])]
      rw [if_neg (by simp [b64Char_ne_pad])]
      simp only [b64Index_b64Char h2, b64Index_b64Char h3, ih hrest]
      congr 1
      congr 1
      · omega
      congr 1
      · omega
      congr 1
      omega

/-! ## UTF-8 validity (Go `unicode/utf8.Valid`) -/

def utf8Cont (b : Nat) : Bool := 128 ≤ b && b ≤ 191

/-- Go `utf8.Valid` over a byte list: well-formed UTF-8, rejecting
overlong encodings, surrogates and code points above U+10FFFF. -/
def utf8Valid : List Nat → Bool
  | [] => true
  | b :: rest =>
    if b ≤ 127 then utf8Valid rest
    else if 194 ≤ b && b ≤ 223 then
      match rest with
      | b1 :: r => utf8Cont b1 && utf8Valid r
      | [] => false
    else if b = 224 then
      match rest with
      | b1 :: b2 :: r => (160 ≤ b1 && b1 ≤ 191) && (utf8Cont b2 && utf8Valid r)
      | _ => false
    else if 225 ≤ b && b ≤ 236 then
      match rest with
      | b1 :: b2 :: r => utf8Cont b1 && (utf8Cont b2 && utf8Valid r)
      | _ => false
    else if b = 237 then
      match rest with
      | b1 :: b2 :: r => (128 ≤ b1 && b1 ≤ 159) && (utf8Cont b2 && utf8Valid r)
      | _ => false
    else if 238 ≤ b && b ≤ 239 then
      match rest with
      | b1 :: b2 :: r => utf8Cont b1 && (utf8Cont b2 && utf8Valid r)
      | _ => false
    else if b = 240 then
      match rest with
      | b1 :: b2 :: b3 :: r => (144 ≤ b1 && b1 ≤ 191) && (utf8Cont b2 && (utf8Cont b3 && utf8Valid r))
      | _ => false
    else if 241 ≤ b && b ≤ 243 then
      match rest with
      | b1 :: b2 :: b3 :: r => utf8Cont b1 && (utf8Cont b2 && (utf8Cont b3 && utf8Valid r))
      | _ => false
    else if b = 244 then
      match rest with
      | b1 :: b2 :: b3 :: r => (128 ≤ b1 && b1 ≤ 143) && (utf8Cont b2 && (utf8Cont b3 && utf8Valid r))
      | _ => false
    else false

/-! ## Captured-request body storage (CaptureHandler, capture.go lines 109-121)

The stored body is modelled as the byte list of the persisted text:
`none` when the body is empty (Go leaves `bodyStr = nil`), the raw bytes
for valid UTF-8, and the ASCII bytes of the base64 encoding otherwise. -/

def storeBody (body : List Nat) : Option (List Nat) :=
  if body.length = 0 then none
  else if utf8Valid body then some body
  else some (base64Encode body)

/-- ASCII bytes of the text `[BINARY DATA - Base64 Encoded]\n`: the fixed
marker the repository prepends to *forward-attempt response* bodies that
are binary (part_010 line 260); the capture path uses no such marker. -/
def binaryMarker : List Nat :=
  [91, 66, 73, 78, 65, 82, 89, 32, 68, 65, 84, 65, 32, 45, 32,
   66, 97, 115, 101, 54, 52, 32, 69, 110, 99, 111, 100, 101, 100, 93, 10]

/-! ## Constant-time digest comparison (Go `crypto/hmac.Equal` /
`crypto/subtle.ConstantTimeCompare`) -/

def strBytes (s : String) : List Nat := s.data.map Char.toNat

/-- Go `hmac.Equal`: length check plus an or-fold of bytewise xors. -/
def hmacEqual (x y : List Nat) : Bool :=
  (x.length == y.length) &&
    ((List.zipWith (fun a b => a ^^^ b) x y).foldl (fun acc v => acc ||| v) 0 == 0)

theorem nat_or_eq_zero (a b : Nat) : a ||| b = 0 ↔ a = 0 ∧ b = 0 := by
  constructor
  · intro h
    have hb : ∀ i, a.testBit i = false ∧ b.testBit i = false := by
      intro i
      have := congrArg (fun n => n.testBit i) h
      simpa [Nat.testBit_or] using this
    exact ⟨Nat.eq_of_testBit_eq fun i => by simp [(hb i).1],
           Nat.eq_of_testBit_eq fun i => by simp [(hb i).2]⟩
  · rintro ⟨rfl, rfl⟩
    rfl

theorem foldl_or_eq_zero (l : List Nat) (acc : Nat) :
    l.foldl (fun a v => a ||| v) acc = 0 ↔ acc = 0 ∧ ∀ v ∈ l, v = 0 := by
  induction l generalizing acc with
  | nil => simp
  | cons x xs ih =>
      simp only [List.foldl_cons, ih, nat_or_eq_zero, List.mem_cons]
      constructor
      · rintro ⟨⟨h1, h2⟩, h3⟩
        exact ⟨h1, fun v hv => hv.elim (fun e => e ▸ h2) (h3 v)⟩
      · rintro ⟨h1, h2⟩
        exact ⟨⟨h1, h2 x (Or.inl rfl)⟩, fun v hv => h2 v (Or.inr hv)⟩

theorem zip_xor_eq : ∀ x y : List Nat, x.length = y.length →
    (∀ v ∈ List.zipWith (fun a b => a ^^^ b) x y, v = 0) → x = y
  | [], [], _, _ => rfl
  | a :: xs, b :: ys, hlen, hall => by
      simp only [List.zipWith_cons_cons, List.mem_cons] at hall
      have hab : a = b := Nat.xor_eq_zero.mp (hall (a ^^^ b) (Or.inl rfl))
      have hxs : xs = ys :=
        zip_xor_eq xs ys (by simpa using hlen) (fun v hv => hall v (Or.inr hv))
      rw [hab, hxs]

theorem hmacEqual_iff (x y : List Nat) : hmacEqual x y = true ↔ x = y := by
  unfold hmacEqual
  simp only [Bool.and_eq_true, beq_iff_eq, foldl_or_eq_zero]
  constructor
  · rintro ⟨hlen, -, hall⟩
    exact zip_xor_eq x y hlen hall
  · rintro rfl
    refine ⟨by simp, by simp, ?_⟩
    intro v hv
    induction x with
    | nil => simp at hv
    | cons a xs ih =>
        simp only [List.zipWith_cons_cons, List.mem_cons, Nat.xor_self] at hv
        exact hv.elim id ih

theorem strBytes_inj {a b : String} (h : strBytes a = strBytes b) : a = b := by
  have hmap : a.data = b.data := by
    refine List.map_injective_iff.mpr ?_ h
    intro c d hcd
    exact Char.ext (UInt32.toNat.inj hcd)
  cases a; cases b
  exact congrArg String.mk hmap

/-! ## Sliding-window rate limiter (CheckRateLimit, part_009)

Timestamps are `Int` seconds; `now` is the admission instant.  The Go
code evicts entries at most one hour old (`t.After(now.Add(-1*time.Hour))`
keeps `t > now - 3600`), then checks each configured limit against the
count of retained timestamps strictly inside the corresponding trailing
window, and appends `now` on admission. -/

structure RateLimits where
  perMin : Option Nat
  perHour : Option Nat
  perDay : Option Nat
  deriving DecidableEq, Repr

/-- Eviction: keep only the last hour of requests. -/
def rlEvict (st : List Int) (now : Int) : List Int :=
  st.filter (fun t => decide (now - 3600 < t))

/-- Count of retained timestamps strictly inside the trailing window of
width `w` ending at `now`. -/
def rlCount (st : List Int) (now w : Int) : Nat :=
  (st.filter (fun t => decide (now - w < t))).length

def limitHit (lim : Option Nat) (count : Nat) : Bool :=
  match lim with
  | some l => l ≤ count
  | none => false

/-- `CheckRateLimit`: `none` settings row permits unconditionally and
leaves the state untouched; otherwise evict, test the three windows in
order, and append `now` when admitted.  Returns (allowed, new state). -/
def checkRateLimit (cfg : Option RateLimits) (st : List Int) (now : Int) :
    Bool × List Int :=
  match cfg with
  | none => (true, st)
  | some l =>
      let st1 := rlEvict st now
      if limitHit l.perMin (rlCount st1 now 60) then (false, st1)
      else if limitHit l.perHour (rlCount st1 now 3600) then (false, st1)
      else if limitHit l.perDay (rlCount st1 now 86400) then (false, st1)
      else (true, st1 ++ [now])

/-- Run the limiter over a sequence of admission requests starting from
state `st`; returns the list of admitted timestamps. -/
def rlRun (cfg : Option RateLimits) (st : List Int) : List Int → List Int
  | [] => []
  | t :: ts =>
      let r := checkRateLimit cfg st t
      if r.1 then t :: rlRun cfg r.2 ts else rlRun cfg r.2 ts

/-- Admitted timestamps of a request sequence against a fresh limiter. -/
def rlAdmitted (cfg : Option RateLimits) (times : List Int) : List Int :=
  rlRun cfg [] times

/-- Number of elements of `l` inside the trailing window `(T - w, T]`. -/
def windowCount (l : List Int) (T w : Int) : Nat :=
  (l.filter (fun t => decide (T - w < t ∧ t ≤ T))).length

theorem length_filter_le_of_imp {l : List Int} {p q : Int → Bool}
    (h : ∀ a ∈ l, p a = true → q a = true) :
    (l.filter p).length ≤ (l.filter q).length := by
  induction l with
  | nil => simp
  | cons x xs ih =>
      have ih' := ih (fun a ha => h a (List.mem_cons_of_mem x ha))
      by_cases hp : p x = true
      · rw [List.filter_cons_of_pos hp, List.filter_cons_of_pos (h x (List.mem_cons_self x xs) hp)]
        simpa using ih'
      · rw [List.filter_cons_of_neg (by simpa using hp)]
        cases hq : q x
        · rw [List.filter_cons_of_neg (by simp [hq])]
          exact ih'
        · rw [List.filter_cons_of_pos hq]
          exact Nat.le_succ_of_le ih'

theorem checkRateLimit_char (l : RateLimits) (st : List Int) (now : Int) :
    (checkRateLimit (some l) st now =
       (true, rlEvict st now ++ [now]) ∧
       limitHit l.perMin (rlCount (rlEvict st now) now 60) = false) ∨
    (checkRateLimit (some l) st now = (false, rlEvict st now)) := by
  by_cases h1 : limitHit l.perMin (rlCount (rlEvict st now) now 60) = true
  · right; simp [checkRateLimit, h1]
  · by_cases h2 : limitHit l.perHour (rlCount (rlEvict st now) now 3600) = true
    · right; simp [checkRateLimit, h1, h2]
    · by_cases h3 : limitHit l.perDay (rlCount (rlEvict st now) now 86400) = true
      · right; simp [checkRateLimit, h1, h2, h3]
      · left
        constructor
        · simp [checkRateLimit, h1, h2, h3]
        · simpa using h1

theorem windowCount_append (A B : List Int) (T w : Int) :
    windowCount (A ++ B) T w = windowCount A T w + windowCount B T w := by
  simp [windowCount, List.filter_append]

theorem rlEvict_step {A st : List Int} {tprev t : Int}
    (hst : st = A.filter (fun a => decide (tprev - 3600 < a)))
    (hle : tprev ≤ t) :
    rlEvict st t = A.filter (fun a => decide (t - 3600 < a)) := by
  subst hst
  rw [rlEvict, List.filter_filter]
  refine List.filter_congr ?_
  intro a _
  by_cases h : t - 3600 < a
  · have h' : tprev - 3600 < a := by omega
    simp [h, h']
  · simp [h]

/-- Core invariant of the per-minute sliding window: starting from a state
that is exactly the sub-hour tail of the previously admitted list `A`, the
concatenation of `A` with the future admissions keeps every trailing
60-second window at or below `L`. -/
theorem rlRun_window_bound (L : Nat) (oh od : Option Nat) :
    ∀ (times A st : List Int) (tprev : Int),
      times.Pairwise (· ≤ ·) →
      (∀ t ∈ times, tprev ≤ t) →
      st = A.filter (fun a => decide (tprev - 3600 < a)) →
      (∀ a ∈ A, a ≤ tprev) →
      (∀ T, windowCount A T 60 ≤ L) →
      ∀ T, windowCount (A ++ rlRun (some ⟨some L, oh, od⟩) st times) T 60 ≤ L := by
  intro times
  induction times with
  | nil =>
      intro A st tprev _ _ _ _ h5 T
      simpa [rlRun] using h5 T
  | cons t ts ih =>
      intro A st tprev hpw hfut hst hpast h5 T
      have hle : tprev ≤ t := hfut t (List.mem_cons_self t ts)
      have hevict : rlEvict st t = A.filter (fun a => decide (t - 3600 < a)) :=
        rlEvict_step hst hle
      have hpw' : ts.Pairwise (· ≤ ·) := (List.pairwise_cons.mp hpw).2
      have hfut' : ∀ u ∈ ts, t ≤ u := (List.pairwise_cons.mp hpw).1
      rcases checkRateLimit_char ⟨some L, oh, od⟩ st t with ⟨heq, hmin⟩ | heq
      · -- admitted
        have hmin' : limitHit (some L) (rlCount (rlEvict st t) t 60) = false := hmin
        have hcount : rlCount (rlEvict st t) t 60 < L := by
          by_contra hc
          push_neg at hc
          have htrue : limitHit (some L) (rlCount (rlEvict st t) t 60) = true := by
            simp only [limitHit, decide_eq_true_eq]
            exact hc
          simp [htrue] at hmin'
        have h5' : ∀ T', windowCount (A ++ [t]) T' 60 ≤ L := by
          intro T'
          rw [windowCount_append]
          by_cases hin : T' - 60 < t ∧ t ≤ T'
          · have hwin1 : windowCount [t] T' 60 = 1 := by
              simp [windowCount, hin]
            have hlt : windowCount A T' 60 < L := by
              have hb : windowCount A T' 60 ≤ rlCount (rlEvict st t) t 60 := by
                rw [hevict, windowCount, rlCount, List.filter_filter]
                refine length_filter_le_of_imp ?_
                intro a _ hp
                have hp' : T' - 60 < a ∧ a ≤ T' := by simpa using hp
                have h60 : t - 60 < a := by omega
                have h3600 : t - 3600 < a := by omega
                simp [h60, h3600]
              omega
            omega
          · have hwin0 : windowCount [t] T' 60 = 0 := by
              simp [windowCount, hin]
            have := h5 T'
            omega
        have hres := ih (A ++ [t]) (rlEvict st t ++ [t]) t hpw' hfut'
          (by
            rw [hevict, List.filter_append]
            congr 1
            simp)
          (by
            intro a ha
            rcases List.mem_append.mp ha with h | h
            · exact le_trans (hpast a h) hle
            · simp at h; omega)
          h5'
        have hrun : rlRun (some ⟨some L, oh, od⟩) st (t :: ts) =
            t :: rlRun (some ⟨some L, oh, od⟩) (rlEvict st t ++ [t]) ts := by
          rw [rlRun, heq]
          simp
        rw [hrun, show A ++ t :: rlRun (some ⟨some L, oh, od⟩) (rlEvict st t ++ [t]) ts
              = (A ++ [t]) ++ rlRun (some ⟨some L, oh, od⟩) (rlEvict st t ++ [t]) ts by simp]
        exact hres T
      · -- denied
        have hres := ih A (rlEvict st t) t hpw' hfut' hevict
          (fun a ha => le_trans (hpast a ha) hle) h5
        have hrun : rlRun (some ⟨some L, oh, od⟩) st (t :: ts) =
            rlRun (some ⟨some L, oh, od⟩) (rlEvict st t) ts := by
          rw [rlRun, heq]
          simp
        rw [hrun]
        exact hres T

/-! ## Signature verifier (VerifySignature, part_013 lines 324-389)

The HMAC primitive itself (`crypto/hmac` over SHA-1/256/512) is kept
abstract: `hmacHex alg secret body` stands for the hex-encoded digest.
Every theorem below is universally quantified over it, so it holds in
particular for the real hash functions. -/

structure EndpointSettings where
  hmacSecret : Option String
  hmacAlgorithm : String
  rateLimitPerMinute : Option Nat
  rateLimitPerHour : Option Nat
  rateLimitPerDay : Option Nat

/-- Header lookup, `r.Header.Get`: first value for the (canonical) name,
or the empty string. -/
def headerGet (headers : List (String × String)) (name : String) : String :=
  match headers.find? (fun p => p.1 == name) with
  | some p => p.2
  | none => ""

/-- Extract the signature from the first present header among the four
recognised names (part_013 lines 349-358). -/
def getSignatureHeader (headers : List (String × String)) : String :=
  let s := headerGet headers "X-Signature"
  let s := if s = "" then headerGet headers "X-Hub-Signature-256" else s
  let s := if s = "" then headerGet headers "X-Stripe-Signature" else s
  if s = "" then headerGet headers "Signature" else s

/-- Go `strings.TrimPrefix`: drop the leading literal `p` when present. -/
def trimLit (s p : String) : String :=
  if p.data.isPrefixOf s.data then ⟨s.data.drop p.data.length⟩ else s

/-- Strip any leading algorithm tags (part_013 lines 365-368): first the
configured algorithm's own `<algo>=` tag, then the three fixed ones. -/
def stripAlgoTags (alg sig : String) : String :=
  let s := trimLit sig (alg ++ "=")
  let s := trimLit s "sha256="
  let s := trimLit s "sha1="
  trimLit s "sha512="

/-- Algorithm selection of the `switch` (part_013 lines 372-385): sha1 and
sha512 are honoured, anything else falls back to sha256. -/
def normAlg (a : String) : String :=
  if a = "sha1" then "sha1" else if a = "sha512" then "sha512" else "sha256"

/-- `VerifySignature`: `.error` models the non-nil Go error return,
`.ok b` the verification verdict. -/
def verifySignature (hmacHex : String → String → List Nat → String)
    (settings : Option EndpointSettings) (headers : List (String × String))
    (body : List Nat) : Except String Bool :=
  match settings with
  | none => .ok true
  | some st =>
      match st.hmacSecret with
      | none => .ok true
      | some secret =>
          if secret = "" then .ok true
          else
            let sig := getSignatureHeader headers
            if sig = "" then .error "no signature header found"
            else
              let expected := hmacHex (normAlg st.hmacAlgorithm) secret body
              .ok (hmacEqual (strBytes (stripAlgoTags st.hmacAlgorithm sig))
                             (strBytes expected))

/-! ## Capture coordinator (CaptureHandler, capture.go lines 23-161) -/

structure EndpointConfig where
  endpointFound : Bool
  uuid : String
  slug : String
  maxBodySize : Nat
  settings : Option EndpointSettings

structure CaptureRequest where
  method : String
  headers : List (String × String)
  body : List Nat

/-- The persisted `requests` row fields the claims are about. -/
structure StoredRequest where
  body : Option (List Nat)
  bodySize : Nat
  deriving DecidableEq

structure CaptureResult where
  status : Nat
  msg : String
  row : Option StoredRequest
  rateState : List Int
  deriving DecidableEq

def rateLimitsOf (settings : Option EndpointSettings) : Option RateLimits :=
  settings.map fun st => ⟨st.rateLimitPerMinute, st.rateLimitPerHour, st.rateLimitPerDay⟩

/-- `CaptureHandler`: slug resolution, bounded body read, rate limiting,
signature verification, then persistence; statuses and early exits follow
capture.go.  The body read models `io.ReadAll(io.LimitReader(r.Body,
maxBodySize+1))`. -/
def captureHandler (hmacHex : String → String → List Nat → String)
    (cfg : EndpointConfig) (req : CaptureRequest) (rateSt : List Int)
    (now : Int) : CaptureResult :=
  if ¬cfg.endpointFound then ⟨404, "Endpoint not found", none, rateSt⟩
  else
    let body := req.body.take (cfg.maxBodySize + 1)
    if cfg.maxBodySize < body.length then
      ⟨413, "Request body too large", none, rateSt⟩
    else
      let r := checkRateLimit (rateLimitsOf cfg.settings) rateSt now
      if ¬r.1 then ⟨429, "Rate limit exceeded", none, r.2⟩
      else
        match verifySignature hmacHex cfg.settings req.headers body with
        | .error e => ⟨500, "Signature verification error: " ++ e, none, r.2⟩
        | .ok false => ⟨401, "Invalid signature", none, r.2⟩
        | .ok true => ⟨200, "OK", some ⟨storeBody body, body.length⟩, r.2⟩

/-- A sequence of captures on one endpoint, threading the limiter state. -/
def captureSeq (hmacHex : String → String → List Nat → String)
    (cfg : EndpointConfig) : List (CaptureRequest × Int) → List Int →
    List CaptureResult
  | [], _ => []
  | (req, t) :: rest, st =>
      let res := captureHandler hmacHex cfg req st t
      res :: captureSeq hmacHex cfg rest res.rateState

/-- Rows persisted by a capture sequence. -/
def persistedRows (results : List CaptureResult) : List StoredRequest :=
  results.filterMap (·.row)

/-! ## SSE event fan-out (part_006 lines 184-297)

A subscriber is a key (the string under which `RealtimeHandler` registered
it — the `endpoint` query parameter, i.e. the slug) and a bounded buffer
of capacity 10 (`make(chan []byte, 10)`). -/

structure SSEConn (α : Type) where
  key : String
  buffer : List α
  deriving DecidableEq

/-- `broadcastToSSE`: deliver `ev` to every connection registered under
`key` whose buffer has free space; a full buffer drops the event for that
connection only; connections under other keys are untouched. -/
def broadcastToSSE (key : String) (ev : α) (conns : List (SSEConn α)) :
    List (SSEConn α) :=
  conns.map fun c =>
    if c.key = key then
      if c.buffer.length < 10 then { c with buffer := c.buffer ++ [ev] } else c
    else c

/-- `publishRequestEvent` (capture.go lines 191-200): broadcasts under
`endpointID.String()` — the endpoint's UUID rendered as a string. -/
def publishRequestEvent (endpointUuid : String) (ev : α)
    (conns : List (SSEConn α)) : List (SSEConn α) :=
  broadcastToSSE endpointUuid ev conns

/-- Capture followed by the event publish the handler performs on success
(capture.go line 153): the event carries the request method; no publish
happens when no row was persisted. -/
def captureAndPublish (hmacHex : String → String → List Nat → String)
    (cfg : EndpointConfig) (req : CaptureRequest) (rateSt : List Int)
    (now : Int) (conns : List (SSEConn String)) :
    CaptureResult × List (SSEConn String) :=
  let res := captureHandler hmacHex cfg req rateSt now
  match res.row with
  | some _ => (res, publishRequestEvent cfg.uuid req.method conns)
  | none => (res, conns)

/-! ## Forwarder retry loop and backoff (part_010)

`calculateBackoff` works on Go float64 values; they are modelled as exact
rationals (all arithmetic involved — products and comparisons of config
values — is exact in float64 for realistic configurations). -/

structure BackoffConfig where
  btype : Option String
  base : Option ℚ
  minMs : Option ℚ
  maxMs : Option ℚ

/-- `calculateBackoff` (part_010 lines 300-334), in milliseconds.  A
missing field reads as 0 through Go's type assertion; a zero field is
replaced by its default (base 2, min 1000, max 30000). -/
def calculateBackoff (attempt : Nat) (config : BackoffConfig) : ℚ :=
  let backoffType := config.btype.getD ""
  let base := config.base.getD 0
  let minMs := config.minMs.getD 0
  let maxMs := config.maxMs.getD 0
  let base := if base = 0 then 2 else base
  let minMs := if minMs = 0 then 1000 else minMs
  let maxMs := if maxMs = 0 then 30000 else maxMs
  let delayMs : ℚ :=
    if backoffType = "exponential" then minMs * (base * ((attempt : ℚ) - 1))
    else if backoffType = "linear" then minMs * (attempt : ℚ)
    else minMs
  let delayMs := if maxMs < delayMs then maxMs else delayMs
  if delayMs < minMs then minMs else delayMs

/-- The backoff schedule as the specification words it: defaults for
absent-or-zero fields, the per-type formula (`min_ms × base × (n − 1)`
exponential, `min_ms × n` linear, `min_ms` otherwise), and the result
clamped into the min/max band with the min bound applied last. -/
def specBackoff (attempt : Nat) (config : BackoffConfig) : ℚ :=
  let base : ℚ := match config.base with
    | none => 2 | some b => if b = 0 then 2 else b
  let minMs : ℚ := match config.minMs with
    | none => 1000 | some m => if m = 0 then 1000 else m
  let maxMs : ℚ := match config.maxMs with
    | none => 30000 | some m => if m = 0 then 30000 else m
  let raw : ℚ :=
    if config.btype = some "exponential" then minMs * base * ((attempt : ℚ) - 1)
    else if config.btype = some "linear" then minMs * (attempt : ℚ)
    else minMs
  max minMs (min maxMs raw)

/-- The retry loop of `forwardRequest` (part_010 lines 174-193), with the
per-attempt outcome abstracted as `outcome : attempt number → success?`
(`executeForward` records exactly one attempt row per call and returns
whether the response status was < 400).  Returns the recorded attempt
numbers and the backoff delays slept between iterations. -/
def forwardLoop (outcome : Nat → Bool) (config : BackoffConfig) :
    Nat → Nat → List Nat × List ℚ
  | _, 0 => ([], [])
  | a, k + 1 =>
      if outcome a then ([a], [])
      else if k = 0 then ([a], [])
      else
        let r := forwardLoop outcome config (a + 1) k
        (a :: r.1, calculateBackoff a config :: r.2)

/-- `forwardRequest`'s retry loop: `maxRetries` is clamped below by 1 and
attempts start at 1. -/
def forwardRequest (maxRetries : Int) (outcome : Nat → Bool)
    (config : BackoffConfig) : List Nat × List ℚ :=
  let m := if maxRetries < 1 then 1 else maxRetries
  forwardLoop outcome config 1 m.toNat

/-! ## Transformation fold (ApplyTransformations, apply.go lines 14-60)

The per-transformation executor (`ExecuteTransformation`, a goja /
gojq interpreter) is abstracted as `exec : α → Option α`; `none` models
an execution error.  The database rows are modelled as a list enumerated
in creation-time ascending order (the table's insertion order), matching
the query's `ORDER BY created_at ASC`. -/

structure Transformation (α : Type) where
  applyTo : String
  enabled : Bool
  exec : α → Option α

/-- The SQL filter `enabled = TRUE AND apply_to IN ($2, 'both')`. -/
def transformQuery (applyTo : String) (ts : List (Transformation α)) :
    List (Transformation α) :=
  ts.filter fun t => t.enabled && (t.applyTo == applyTo || t.applyTo == "both")

/-- `ApplyTransformations`: fold the queried transformations over the
input, keeping the previous value when one errors. -/
def applyTransformations (ts : List (Transformation α)) (applyTo : String)
    (data : α) : α :=
  (transformQuery applyTo ts).foldl
    (fun acc t => match t.exec acc with | some v => v | none => acc) data

/-- The chain as the specification words it: walk the creation-ordered
list, apply each enabled matching transformation to the current value,
feed successes forward and skip errors. -/
def specApplyChain (applyTo : String) : List (Transformation α) → α → α
  | [], d => d
  | t :: ts, d =>
      if t.enabled = true ∧ (t.applyTo = applyTo ∨ t.applyTo = "both") then
        specApplyChain applyTo ts (match t.exec d with | some v => v | none => d)
      else specApplyChain applyTo ts d

/-! ## Concrete fixtures used by the claim theorems -/

/-- Placeholder MAC function for scenarios on endpoints without a secret
(the handler never consults it there). -/
def hmacHexZero : String → String → List Nat → String := fun _ _ _ => ""

/-- Endpoint with `rate_limit_per_minute = 3` and no HMAC secret. -/
def cfgMin3 : EndpointConfig :=
  ⟨true, "123e4567-e89b-12d3-a456-426614174000", "fh_demo123", 100,
   some ⟨none, "sha256", some 3, none, none⟩⟩

/-- Four captures arriving at seconds 0, 2, 4, 6 — within 10 seconds. -/
def reqs4 : List (CaptureRequest × Int) :=
  [(⟨"POST", [], [1]⟩, 0), (⟨"POST", [], [1]⟩, 2),
   (⟨"POST", [], [1]⟩, 4), (⟨"POST", [], [1]⟩, 6)]

/-- Endpoint with body limit `M`, no settings row. -/
def plainCfg (M : Nat) : EndpointConfig := ⟨true, "u-1", "fh_plain", M, none⟩

/-! ## Claim theorems -/

/-- Claim C1: the claim says a persisted capture's event reaches every SSE
subscriber registered under the endpoint's *slug* with free buffer space.
The code publishes under `endpointID.String()` — the UUID — while
`RealtimeHandler` registers subscribers under the slug, so a slug
subscriber with an empty buffer receives nothing even though the capture
persisted; broadcasting under the slug (as the claim demands) would have
delivered the event.  The non-blocking drop-on-full mechanism itself is
also exhibited: a full buffer loses the event while a free one receives
it. -/
theorem c1_publish_key_mismatch :
    (let cfg : EndpointConfig :=
       ⟨true, "123e4567-e89b-12d3-a456-426614174000", "fh_abc12345", 100, none⟩
     let conns : List (SSEConn String) := [⟨"fh_abc12345", []⟩]
     let out := captureAndPublish hmacHexZero cfg ⟨"POST", [], [123]⟩ [] 0 conns
     out.1.status = 200 ∧ out.1.row ≠ none ∧
     out.2 = [⟨"fh_abc12345", []⟩] ∧
     broadcastToSSE "fh_abc12345" "POST" conns = [⟨"fh_abc12345", ["POST"]⟩]) ∧
    broadcastToSSE "k" "e" [⟨"k", ["0", "1", "2", "3", "4", "5", "6", "7", "8", "9"]⟩, ⟨"k", []⟩]
      = [⟨"k", ["0", "1", "2", "3", "4", "5", "6", "7", "8", "9"]⟩, ⟨"k", ["e"]⟩] := by
  decide

/-- Claim C2, counterexample: for the binary payload `[255]` the persisted
body is exactly the base64 text `/w==` (bytes 47, 119, 61, 61) with no
marker text in front of it — in particular it is not the repository's
fixed binary marker followed by the base64 encoding. -/
theorem c2_marker_counterexample :
    storeBody [255] = some (base64Encode [255]) ∧
    base64Encode [255] = [47, 119, 61, 61] ∧
    binaryMarker ++ base64Encode [255] ≠ base64Encode [255] := by
  decide

/-- Claim C2 (amended): a non-empty captured body that is valid UTF-8 is
persisted verbatim; a non-UTF-8 body is persisted as its plain base64
encoding with no marker, and base64-decoding the stored text yields
exactly the original bytes. -/
theorem c2_body_storage (body : List Nat) (hbytes : ∀ b ∈ body, b < 256)
    (hne : body ≠ []) :
    (utf8Valid body = true → storeBody body = some body) ∧
    (utf8Valid body = false →
      storeBody body = some (base64Encode body) ∧
      base64Decode (base64Encode body) = some body) := by
  have hlen : body.length ≠ 0 := fun h => hne (List.length_eq_zero.mp h)
  constructor
  · intro hv
    simp [storeBody, hlen, hv]
  · intro hv
    exact ⟨by simp [storeBody, hlen, hv], base64_roundTrip body hbytes⟩

theorem c2_body_storage_witness :
    (∀ b ∈ ([255] : List Nat), b < 256) ∧ ([255] : List Nat) ≠ [] ∧
    (utf8Valid [255] = false →
      storeBody [255] = some (base64Encode [255]) ∧
      base64Decode (base64Encode [255]) = some [255]) :=
  ⟨by decide, by decide, (c2_body_storage [255] (by decide) (by decide)).2⟩

/-- Claim C5, counterexample: with `rate_limit_per_day = 1`, an admission
at second 0 followed by one at second 7200 (two hours later) are *both*
admitted, although at the second instant the number of admissions in the
trailing 24-hour window had already reached the limit 1 — the hour-wide
eviction has forgotten the first admission. -/
theorem c5_day_window_counterexample :
    rlAdmitted (some ⟨none, none, some 1⟩) [0, 7200] = [0, 7200] ∧
    windowCount [0] 7200 86400 = 1 := by
  decide

/-- Claim C5 (amended): with a per-day limit `D` the limiter first evicts
every timestamp at least one hour old, so the per-day check only ever
counts the retained sub-hour tail: an admission is denied iff that tail
has reached `D`, and the 24-hour filter over the retained tail is
vacuous — admissions older than one hour never count toward the per-day
limit. -/
theorem c5_day_limit_hour_tail (D : Nat) (st : List Int) (now : Int) :
    ((checkRateLimit (some ⟨none, none, some D⟩) st now).1 = false ↔
      D ≤ rlCount (rlEvict st now) now 86400) ∧
    rlCount (rlEvict st now) now 86400 = (rlEvict st now).length := by
  have htail : rlCount (rlEvict st now) now 86400 = (rlEvict st now).length := by
    rw [rlCount]
    congr 1
    rw [List.filter_eq_self]
    intro a ha
    rw [rlEvict, List.mem_filter] at ha
    have := of_decide_eq_true ha.2
    simp only [decide_eq_true_eq]
    omega
  refine ⟨?_, htail⟩
  constructor
  · intro h
    by_cases hd : D ≤ rlCount (rlEvict st now) now 86400
    · exact hd
    · exfalso
      have : (checkRateLimit (some ⟨none, none, some D⟩) st now).1 = true := by
        simp [checkRateLimit, limitHit, hd]
      rw [h] at this
      cases this
  · intro h
    simp [checkRateLimit, limitHit, h]

theorem verifySignature_mismatch
    (hmacHex : String → String → List Nat → String)
    (headers : List (String × String)) (body : List Nat)
    (secret alg : String) (l1 l2 l3 : Option Nat)
    (hsecret : secret ≠ "")
    (hsig : getSignatureHeader headers ≠ "")
    (hmismatch : stripAlgoTags alg (getSignatureHeader headers) ≠
       hmacHex (normAlg alg) secret body) :
    verifySignature hmacHex (some ⟨some secret, alg, l1, l2, l3⟩) headers body =
      .ok false := by
  have hfalse : hmacEqual (strBytes (stripAlgoTags alg (getSignatureHeader headers)))
      (strBytes (hmacHex (normAlg alg) secret body)) = false := by
    cases h : hmacEqual (strBytes (stripAlgoTags alg (getSignatureHeader headers)))
        (strBytes (hmacHex (normAlg alg) secret body)) with
    | false => rfl
    | true => exact absurd (strBytes_inj ((hmacEqual_iff _ _).mp h)) hmismatch
  simp only [verifySignature]
  rw [if_neg hsecret, if_neg hsig, hfalse]

/-- Claim C3: on an endpoint with a non-empty HMAC secret, a capture that
passes the size and rate gates but whose supplied digest — after the
algorithm-tag stripping — differs from the computed digest is answered
with 401 and no `requests` row is persisted; and the digest comparison
used by the code (`hmac.Equal`, an or-fold of bytewise xors after a
length check) decides exactly string equality of the hex digests. -/
theorem c3_signature_mismatch
    (hmacHex : String → String → List Nat → String)
    (cfg : EndpointConfig) (req : CaptureRequest) (st : List Int) (now : Int)
    (secret alg : String) (l1 l2 l3 : Option Nat)
    (hfound : cfg.endpointFound = true)
    (hset : cfg.settings = some ⟨some secret, alg, l1, l2, l3⟩)
    (hsecret : secret ≠ "")
    (hsize : (req.body.take (cfg.maxBodySize + 1)).length ≤ cfg.maxBodySize)
    (hrate : (checkRateLimit (rateLimitsOf cfg.settings) st now).1 = true)
    (hsig : getSignatureHeader req.headers ≠ "")
    (hmismatch : stripAlgoTags alg (getSignatureHeader req.headers) ≠
       hmacHex (normAlg alg) secret (req.body.take (cfg.maxBodySize + 1))) :
    ((captureHandler hmacHex cfg req st now).status = 401 ∧
     (captureHandler hmacHex cfg req st now).row = none) ∧
    (∀ x y : List Nat, hmacEqual x y = true ↔ x = y) := by
  refine ⟨?_, fun x y => hmacEqual_iff x y⟩
  have hver := verifySignature_mismatch hmacHex req.headers
    (req.body.take (cfg.maxBodySize + 1)) secret alg l1 l2 l3 hsecret hsig hmismatch
  simp only [captureHandler, hfound, Bool.not_true, hset] at *
  rw [if_neg (by simp), if_neg (Nat.not_lt.mpr hsize), if_neg (by simp [hrate]), hver]
  exact ⟨rfl, rfl⟩

theorem c3_signature_mismatch_witness :
    ("s3cr" : String) ≠ "" ∧
    getSignatureHeader [("X-Signature", "sha256=aaaa")] ≠ "" ∧
    stripAlgoTags "sha256" (getSignatureHeader [("X-Signature", "sha256=aaaa")]) ≠
      (fun _ _ _ => "deadbeef" : String → String → List Nat → String) (normAlg "sha256") "s3cr"
        (([1, 2] : List Nat).take (10 + 1)) ∧
    ((captureHandler (fun _ _ _ => "deadbeef")
        ⟨true, "u-1", "fh_x", 10, some ⟨some "s3cr", "sha256", none, none, none⟩⟩
        ⟨"POST", [("X-Signature", "sha256=aaaa")], [1, 2]⟩ [] 0).status = 401 ∧
     (captureHandler (fun _ _ _ => "deadbeef")
        ⟨true, "u-1", "fh_x", 10, some ⟨some "s3cr", "sha256", none, none, none⟩⟩
        ⟨"POST", [("X-Signature", "sha256=aaaa")], [1, 2]⟩ [] 0).row = none) :=
  ⟨by decide, by decide, by decide,
   (c3_signature_mismatch (fun _ _ _ => "deadbeef")
      ⟨true, "u-1", "fh_x", 10, some ⟨some "s3cr", "sha256", none, none, none⟩⟩
      ⟨"POST", [("X-Signature", "sha256=aaaa")], [1, 2]⟩ [] 0 "s3cr" "sha256"
      none none none rfl rfl (by decide) (by decide) (by decide)
      (by decide) (by decide)).1⟩

/-- Claim C10: on an endpoint with a non-empty HMAC secret, a capture that
carries none of the four recognised signature headers is answered with
500 and the message `Signature verification error: no signature header
found` — not with 401 — and no row is persisted. -/
theorem c10_missing_header_500
    (hmacHex : String → String → List Nat → String)
    (cfg : EndpointConfig) (req : CaptureRequest) (st : List Int) (now : Int)
    (secret alg : String) (l1 l2 l3 : Option Nat)
    (hfound : cfg.endpointFound = true)
    (hset : cfg.settings = some ⟨some secret, alg, l1, l2, l3⟩)
    (hsecret : secret ≠ "")
    (hsize : (req.body.take (cfg.maxBodySize + 1)).length ≤ cfg.maxBodySize)
    (hrate : (checkRateLimit (rateLimitsOf cfg.settings) st now).1 = true)
    (h1 : headerGet req.headers "X-Signature" = "")
    (h2 : headerGet req.headers "X-Hub-Signature-256" = "")
    (h3 : headerGet req.headers "X-Stripe-Signature" = "")
    (h4 : headerGet req.headers "Signature" = "") :
    (captureHandler hmacHex cfg req st now).status = 500 ∧
    (captureHandler hmacHex cfg req st now).msg =
      "Signature verification error: no signature header found" ∧
    (captureHandler hmacHex cfg req st now).row = none := by
  have hsig : getSignatureHeader req.headers = "" := by
    simp [getSignatureHeader, h1, h2, h3, h4]
  have hver : verifySignature hmacHex cfg.settings req.headers
      (req.body.take (cfg.maxBodySize + 1)) = .error "no signature header found" := by
    rw [hset]
    simp only [verifySignature]
    rw [if_neg hsecret, if_pos hsig]
  simp only [captureHandler, hfound, Bool.not_true]
  rw [if_neg (by simp), if_neg (Nat.not_lt.mpr hsize), if_neg (by simp [hrate]), hver]
  exact ⟨rfl, rfl, rfl⟩

theorem c10_missing_header_500_witness :
    headerGet ([("Content-Type", "application/json")] : List (String × String))
        "X-Signature" = "" ∧
    ((captureHandler hmacHexZero
        ⟨true, "u-1", "fh_x", 10, some ⟨some "s3cr", "sha256", none, none, none⟩⟩
        ⟨"POST", [("Content-Type", "application/json")], [1, 2]⟩ [] 0).status = 500 ∧
     (captureHandler hmacHexZero
        ⟨true, "u-1", "fh_x", 10, some ⟨some "s3cr", "sha256", none, none, none⟩⟩
        ⟨"POST", [("Content-Type", "application/json")], [1, 2]⟩ [] 0).msg =
       "Signature verification error: no signature header found" ∧
     (captureHandler hmacHexZero
        ⟨true, "u-1", "fh_x", 10, some ⟨some "s3cr", "sha256", none, none, none⟩⟩
        ⟨"POST", [("Content-Type", "application/json")], [1, 2]⟩ [] 0).row = none) :=
  ⟨by decide,
   c10_missing_header_500 hmacHexZero
     ⟨true, "u-1", "fh_x", 10, some ⟨some "s3cr", "sha256", none, none, none⟩⟩
     ⟨"POST", [("Content-Type", "application/json")], [1, 2]⟩ [] 0 "s3cr" "sha256"
     none none none rfl rfl (by decide) (by decide) (by decide)
     (by decide) (by decide) (by decide) (by decide)⟩

/-- Claim C4: with a per-minute limit `L` (and arbitrary hour/day limits),
over any chronologically ordered request sequence at most `L` captures are
admitted inside every trailing 60-second window; a request is denied by
the minute check exactly when the count of retained admission timestamps
inside the window has already reached `L`; and in the literal scenario —
limit 3, four captures within 10 seconds — the statuses are 200, 200,
200, 429 and exactly three request rows persist. -/
theorem c4_minute_window (L : Nat) (oh od : Option Nat) (times : List Int)
    (hsort : times.Pairwise (· ≤ ·)) (T : Int) :
    windowCount (rlAdmitted (some ⟨some L, oh, od⟩) times) T 60 ≤ L ∧
    (∀ st now, (checkRateLimit (some ⟨some L, none, none⟩) st now).1 = false ↔
       L ≤ rlCount (rlEvict st now) now 60) ∧
    ((captureSeq hmacHexZero cfgMin3 reqs4 []).map (·.status) = [200, 200, 200, 429] ∧
     (persistedRows (captureSeq hmacHexZero cfgMin3 reqs4 [])).length = 3) := by
  refine ⟨?_, ?_, by decide⟩
  · have hbound := rlRun_window_bound L oh od times [] []
      (match times with | [] => 0 | t :: _ => t) hsort ?_ (by simp) (by simp)
      (by intro T'; simp [windowCount]) T
    · simpa [rlAdmitted] using hbound
    · intro t ht
      cases times with
      | nil => cases ht
      | cons u us =>
          rcases List.mem_cons.mp ht with rfl | hmem
          · exact le_refl t
          · exact (List.pairwise_cons.mp hsort).1 t hmem
  · intro st now
    constructor
    · intro h
      by_cases hd : L ≤ rlCount (rlEvict st now) now 60
      · exact hd
      · exfalso
        have : (checkRateLimit (some ⟨some L, none, none⟩) st now).1 = true := by
          simp [checkRateLimit, limitHit, hd]
        rw [h] at this
        cases this
    · intro h
      simp [checkRateLimit, limitHit, h]

theorem c4_minute_window_witness :
    ([0, 2, 4, 6] : List Int).Pairwise (· ≤ ·) ∧
    windowCount (rlAdmitted (some ⟨some 3, none, none⟩) [0, 2, 4, 6]) 6 60 ≤ 3 :=
  ⟨by decide, (c4_minute_window 3 none none [0, 2, 4, 6] (by decide) 6).1⟩

theorem forwardLoop_succ_true {outcome : Nat → Bool} {config : BackoffConfig}
    {a k : Nat} (h : outcome a = true) :
    forwardLoop outcome config a (k + 1) = ([a], []) := by
  simp [forwardLoop, h]

theorem forwardLoop_one_stop {outcome : Nat → Bool} {config : BackoffConfig}
    {a : Nat} (h : outcome a = false) :
    forwardLoop outcome config a 1 = ([a], []) := by
  simp [forwardLoop, h]

theorem forwardLoop_succ_false {outcome : Nat → Bool} {config : BackoffConfig}
    {a k : Nat} (h : outcome a = false) (hk : k ≠ 0) :
    forwardLoop outcome config a (k + 1) =
      (a :: (forwardLoop outcome config (a + 1) k).1,
       calculateBackoff a config :: (forwardLoop outcome config (a + 1) k).2) := by
  simp [forwardLoop, h, hk]

theorem forwardLoop_spec (outcome : Nat → Bool) (config : BackoffConfig) :
    ∀ (k a : Nat),
      (forwardLoop outcome config a k).1 =
        List.range' a (forwardLoop outcome config a k).1.length ∧
      (forwardLoop outcome config a k).1.length ≤ k ∧
      (∀ i ∈ (forwardLoop outcome config a k).1, outcome i = true →
        ∀ j ∈ (forwardLoop outcome config a k).1, j ≤ i) := by
  intro k
  induction k with
  | zero => intro a; simp [forwardLoop]
  | succ k ih =>
      intro a
      cases hout : outcome a with
      | true =>
          rw [forwardLoop_succ_true hout]
          refine ⟨by simp [List.range'], by simp, ?_⟩
          intro i hi _ j hj
          simp only [List.mem_singleton] at hi hj
          omega
      | false =>
          by_cases hk : k = 0
          · subst hk
            rw [forwardLoop_one_stop hout]
            refine ⟨by simp [List.range'], by simp, ?_⟩
            intro i hi hisucc
            simp only [List.mem_singleton] at hi
            subst hi
            rw [hisucc] at hout
            cases hout
          · rw [forwardLoop_succ_false hout hk]
            obtain ⟨ihr, ihlen, ihsucc⟩ := ih (a + 1)
            refine ⟨?_, by simpa using ihlen, ?_⟩
            · simp only [List.length_cons]
              rw [List.range'_succ, ← ihr]
            · intro i hi hisucc j hj
              rcases List.mem_cons.mp hi with rfl | hi'
              · rw [hisucc] at hout; cases hout
              · have hlow : a + 1 ≤ i := by
                  rw [ihr] at hi'
                  have := List.mem_range'.mp hi'
                  omega
                rcases List.mem_cons.mp hj with rfl | hj'
                · omega
                · exact ihsucc i hi' hisucc j hj'

/-- Claim C6: for `max_retries ≥ 1`, the attempt numbers recorded for one
(request, rule) task form the contiguous sequence `1, …, n` with
`n ≤ max_retries`; once an attempt succeeds no attempt with a higher
number is recorded; and with `max_retries = 1` exactly one attempt is
made and no backoff sleep occurs. -/
theorem c6_forward_attempts (m : Int) (hm : 1 ≤ m) (outcome : Nat → Bool)
    (config : BackoffConfig) :
    (let r := forwardRequest m outcome config
     (r.1 = List.range' 1 r.1.length) ∧
     ((r.1.length : Int) ≤ m) ∧
     (∀ i ∈ r.1, outcome i = true → ∀ j ∈ r.1, j ≤ i) ∧
     (m = 1 → r.1 = [1] ∧ r.2 = [])) := by
  have hclamp : (if m < 1 then 1 else m) = m := if_neg (by omega)
  obtain ⟨hr, hlen, hsucc⟩ := forwardLoop_spec outcome config m.toNat 1
  refine ⟨?_, ?_, ?_, ?_⟩
  · simpa [forwardRequest, hclamp] using hr
  · have : (m.toNat : Int) = m := Int.toNat_of_nonneg (by omega)
    simp only [forwardRequest, hclamp]
    omega
  · simpa [forwardRequest, hclamp] using hsucc
  · intro hm1
    subst hm1
    by_cases hout : outcome 1 = true <;>
      simp [forwardRequest, forwardLoop, hout]

theorem c6_forward_attempts_witness :
    (1 : Int) ≤ 3 ∧
    (let r := forwardRequest 3 (fun n => n == 2) ⟨none, none, none, none⟩
     (r.1 = List.range' 1 r.1.length) ∧
     ((r.1.length : Int) ≤ 3) ∧
     (∀ i ∈ r.1, (fun n => n == 2) i = true → ∀ j ∈ r.1, j ≤ i) ∧
     ((3 : Int) = 1 → r.1 = [1] ∧ r.2 = [])) :=
  ⟨by decide,
   c6_forward_attempts 3 (by decide) (fun n => n == 2) ⟨none, none, none, none⟩⟩

/-- Effective minimum delay after defaulting (absent or zero → 1000 ms). -/
def effMinMs (config : BackoffConfig) : ℚ :=
  match config.minMs with
  | none => 1000
  | some m => if m = 0 then 1000 else m

/-- Effective maximum delay after defaulting (absent or zero → 30000 ms). -/
def effMaxMs (config : BackoffConfig) : ℚ :=
  match config.maxMs with
  | none => 30000
  | some m => if m = 0 then 30000 else m

theorem clamp_eq (lo hi d : ℚ) :
    (if (if hi < d then hi else d) < lo then lo else if hi < d then hi else d)
      = max lo (min hi d) := by
  by_cases h1 : hi < d
  · rw [if_pos h1, min_eq_left (le_of_lt h1)]
    by_cases h2 : hi < lo
    · rw [if_pos h2, max_eq_left (le_of_lt h2)]
    · rw [if_neg h2, max_eq_right (not_lt.mp h2)]
  · rw [if_neg h1, min_eq_right (not_lt.mp h1)]
    by_cases h2 : d < lo
    · rw [if_pos h2, max_eq_left (le_of_lt h2)]
    · rw [if_neg h2, max_eq_right (not_lt.mp h2)]

theorem calculateBackoff_eq_spec (n : Nat) (config : BackoffConfig) :
    calculateBackoff n config = specBackoff n config := by
  obtain ⟨bt, b, mi, ma⟩ := config
  have hexp : (bt.getD "" = "exponential") = (bt = some "exponential") := by
    cases bt <;> simp
  have hlin : (bt.getD "" = "linear") = (bt = some "linear") := by
    cases bt <;> simp
  have hmin : (if (mi.getD 0) = 0 then (1000 : ℚ) else mi.getD 0) =
      (match mi with | none => (1000 : ℚ) | some m => if m = 0 then 1000 else m) := by
    cases mi <;> simp
  have hmax : (if (ma.getD 0) = 0 then (30000 : ℚ) else ma.getD 0) =
      (match ma with | none => (30000 : ℚ) | some m => if m = 0 then 30000 else m) := by
    cases ma <;> simp
  have hbase : (if (b.getD 0) = 0 then (2 : ℚ) else b.getD 0) =
      (match b with | none => (2 : ℚ) | some x => if x = 0 then 2 else x) := by
    cases b <;> simp
  simp only [calculateBackoff, specBackoff, hexp, hlin, hmin, hmax, hbase, mul_assoc]
  exact clamp_eq _ _ _

/-- Claim C7: for any attempt number `n ≥ 1` the computed delay equals the
specification's schedule — `min_ms × base × (n−1)` for `exponential`,
`min_ms × n` for `linear`, `min_ms` otherwise, with absent-or-zero fields
defaulted to base 2 / min 1000 / max 30000 and the result clamped into
the min/max band (min applied last) — and consequently the exponential
delay at `n = 1` is the effective `min_ms` whenever the effective bounds
are non-negative. -/
theorem c7_backoff_schedule (n : Nat) (config : BackoffConfig) (_h1 : 1 ≤ n) :
    calculateBackoff n config = specBackoff n config ∧
    (config.btype = some "exponential" → 0 ≤ effMinMs config →
      0 ≤ effMaxMs config → calculateBackoff 1 config = effMinMs config) := by
  refine ⟨calculateBackoff_eq_spec n config, ?_⟩
  intro hexp hlo hhi
  rw [calculateBackoff_eq_spec 1 config]
  simp only [specBackoff, hexp]
  rw [if_pos trivial]
  rw [show ((1 : Nat) : ℚ) - 1 = 0 by norm_num, mul_zero]
  show max (effMinMs config) (min (effMaxMs config) 0) = effMinMs config
  rw [min_eq_right hhi, max_eq_left hlo]

theorem c7_backoff_schedule_witness :
    1 ≤ 2 ∧
    calculateBackoff 2 ⟨some "exponential", none, none, none⟩ =
      specBackoff 2 ⟨some "exponential", none, none, none⟩ ∧
    calculateBackoff 1 ⟨some "exponential", none, none, none⟩ =
      effMinMs ⟨some "exponential", none, none, none⟩ :=
  ⟨by decide,
   (c7_backoff_schedule 2 ⟨some "exponential", none, none, none⟩ (by decide)).1,
   (c7_backoff_schedule 2 ⟨some "exponential", none, none, none⟩ (by decide)).2
     rfl (by decide) (by decide)⟩

theorem applyTransformations_eq_chain {α : Type} (ts : List (Transformation α))
    (applyTo : String) (d : α) :
    applyTransformations ts applyTo d = specApplyChain applyTo ts d := by
  induction ts generalizing d with
  | nil => rfl
  | cons t ts ih =>
      by_cases hp : (t.enabled && (t.applyTo == applyTo || t.applyTo == "both")) = true
      · have hProp : t.enabled = true ∧ (t.applyTo = applyTo ∨ t.applyTo = "both") := by
          simpa using hp
        rw [specApplyChain, if_pos hProp]
        rw [show applyTransformations (t :: ts) applyTo d =
              applyTransformations ts applyTo
                (match t.exec d with | some v => v | none => d) from by
          simp [applyTransformations, transformQuery, List.filter_cons, hp]]
        exact ih _
      · have hProp : ¬ (t.enabled = true ∧ (t.applyTo = applyTo ∨ t.applyTo = "both")) := by
          simpa using hp
        rw [specApplyChain, if_neg hProp]
        rw [show applyTransformations (t :: ts) applyTo d =
              applyTransformations ts applyTo d from by
          simp [applyTransformations, transformQuery, List.filter_cons,
            Bool.eq_false_iff.mpr hp]]
        exact ih d

/-- Errors leave the accumulator unchanged, so an all-erroring queried
chain returns the input. -/
theorem applyTransformations_all_err {α : Type} (ts : List (Transformation α))
    (applyTo : String) (d : α)
    (h : ∀ t ∈ transformQuery applyTo ts, ∀ v, t.exec v = none) :
    applyTransformations ts applyTo d = d := by
  rw [applyTransformations]
  revert h
  generalize transformQuery applyTo ts = Q
  intro h
  induction Q generalizing d with
  | nil => rfl
  | cons t Q ih =>
      rw [List.foldl_cons]
      have ht := h t (List.mem_cons_self _ _)
      have hstep : (match t.exec d with | some v => v | none => d) = d := by
        rw [ht d]
      show List.foldl _ (match t.exec d with | some v => v | none => d) Q = d
      rw [hstep]
      exact ih d (fun t' ht' => h t' (List.mem_cons_of_mem _ ht'))

/-- Claim C8: `ApplyTransformations` folds exactly the enabled
transformations whose apply-to matches the selector (or is `both`), in
creation order, feeding each output to the next, with an erroring
transformation skipped and the fold continuing from the most recent
successful value — this is the spec-worded chain `specApplyChain` — and
when every queried transformation errors the result is the original
input.  The fold's type (`α`, not `Except`) shows it never surfaces a
transformation error. -/
theorem c8_transformation_fold {α : Type} (ts : List (Transformation α))
    (applyTo : String) (d : α) :
    applyTransformations ts applyTo d = specApplyChain applyTo ts d ∧
    ((∀ t ∈ transformQuery applyTo ts, ∀ v, t.exec v = none) →
      applyTransformations ts applyTo d = d) :=
  ⟨applyTransformations_eq_chain ts applyTo d,
   fun h => applyTransformations_all_err ts applyTo d h⟩

theorem c8_transformation_fold_witness :
    (∀ t ∈ transformQuery "request"
        ([⟨"request", true, fun _ => none⟩] : List (Transformation Nat)),
      ∀ v, t.exec v = none) ∧
    applyTransformations
      ([⟨"request", true, fun _ => none⟩] : List (Transformation Nat))
      "request" 7 = 7 := by
  have hall : ∀ t ∈ transformQuery "request"
      ([⟨"request", true, fun _ => none⟩] : List (Transformation Nat)),
      ∀ v, t.exec v = none := by
    intro t ht v
    have : t = ⟨"request", true, fun _ => none⟩ := by
      simpa [transformQuery] using ht
    rw [this]
  exact ⟨hall,
    (c8_transformation_fold
      ([⟨"request", true, fun _ => none⟩] : List (Transformation Nat))
      "request" 7).2 hall⟩

/-- Claim C9: every persisted row records `body_size` equal to the byte
length of the body read (at most `max_body_size + 1` bytes are read), and
that length never exceeds `max_body_size`; on an endpoint with body limit
`M` and no settings row, a body of exactly `M` bytes is admitted with 200
and persists with `body_size = M`, while a body of `M + 1` bytes is
rejected with 413 and nothing persists. -/
theorem c9_body_size_bound :
    (∀ (hmacHex : String → String → List Nat → String) (cfg : EndpointConfig)
       (req : CaptureRequest) (st : List Int) (now : Int) (row : StoredRequest),
       (captureHandler hmacHex cfg req st now).row = some row →
       row.bodySize = (req.body.take (cfg.maxBodySize + 1)).length ∧
       row.bodySize ≤ cfg.maxBodySize) ∧
    (∀ (M : Nat) (method : String) (headers : List (String × String))
       (body : List Nat) (st : List Int) (now : Int), body.length = M →
       (captureHandler hmacHexZero (plainCfg M) ⟨method, headers, body⟩ st now).status
          = 200 ∧
       (captureHandler hmacHexZero (plainCfg M) ⟨method, headers, body⟩ st now).row
          = some ⟨storeBody body, M⟩) ∧
    (∀ (M : Nat) (method : String) (headers : List (String × String))
       (body : List Nat) (st : List Int) (now : Int), body.length = M + 1 →
       (captureHandler hmacHexZero (plainCfg M) ⟨method, headers, body⟩ st now).status
          = 413 ∧
       (captureHandler hmacHexZero (plainCfg M) ⟨method, headers, body⟩ st now).row
          = none) := by
  refine ⟨?_, ?_, ?_⟩
  · intro hmacHex cfg req st now row hrow
    simp only [captureHandler] at hrow
    split at hrow
    · cases hrow
    · split at hrow
      · cases hrow
      · split at hrow
        · cases hrow
        · split at hrow
          · cases hrow
          · cases hrow
          · rename_i hsize _ _ _
            injection hrow with hrow
            subst hrow
            refine ⟨rfl, ?_⟩
            simpa using Nat.not_lt.mp hsize
  · intro M method headers body st now hlen
    have htake : body.take (M + 1) = body := List.take_of_length_le (by omega)
    have hguard : ¬ (plainCfg M).maxBodySize < (body.take ((plainCfg M).maxBodySize + 1)).length := by
      simp [plainCfg, htake, hlen]
    constructor <;>
      simp [captureHandler, plainCfg, rateLimitsOf, checkRateLimit,
        verifySignature, htake, hlen]
  · intro M method headers body st now hlen
    have htake : body.take (M + 1) = body := List.take_of_length_le (by omega)
    constructor <;>
      simp [captureHandler, plainCfg, htake, hlen]

theorem c9_body_size_bound_witness :
    ([9, 9] : List Nat).length = 2 ∧
    ((captureHandler hmacHexZero (plainCfg 2) ⟨"POST", [], [9, 9]⟩ [] 0).status = 200 ∧
     (captureHandler hmacHexZero (plainCfg 2) ⟨"POST", [], [9, 9]⟩ [] 0).row =
       some ⟨storeBody [9, 9], 2⟩) ∧
    ([9, 9, 9] : List Nat).length = 2 + 1 ∧
    ((captureHandler hmacHexZero (plainCfg 2) ⟨"POST", [], [9, 9, 9]⟩ [] 0).status = 413 ∧
     (captureHandler hmacHexZero (plainCfg 2) ⟨"POST", [], [9, 9, 9]⟩ [] 0).row = none) :=
  ⟨by decide,
   c9_body_size_bound.2.1 2 "POST" [] [9, 9] [] 0 (by decide),
   by decide,
   c9_body_size_bound.2.2 2 "POST" [] [9, 9, 9] [] 0 (by decide)⟩

end FlowHook
